import Mathlib

/-!
Verification of the object-detection pipeline: data model, NMS (suppressor),
coordinate mapper, YOLO output decoder and backend resolver, embedded as pure
Lean functions over exact rationals, together with theorems settling the
specification's testable properties.
-/

/-- Raw detection emitted by the decoder, in model-pixel space
(`src/app/lib/types/model.ts`, interface `RawDetection`). -/
structure RawDetection where
  classId : ℕ
  confidence : ℚ
  cx : ℚ
  cy : ℚ
  width : ℚ
  height : ℚ
  deriving DecidableEq, Repr

/-- Detection in corner form, extending `RawDetection` with the derived
corners (`src/unnamed/part_003`, interface `Detection`). -/
structure Detection extends RawDetection where
  x1 : ℚ
  y1 : ℚ
  x2 : ℚ
  y2 : ℚ
  deriving DecidableEq, Repr

/-- Center-form to corner-form conversion
(`src/unnamed/part_003`, `convertToCornerCoords`). -/
def convertToCornerCoords (detection : RawDetection) : Detection :=
  { toRawDetection := detection
    x1 := detection.cx - detection.width / 2
    y1 := detection.cy - detection.height / 2
    x2 := detection.cx + detection.width / 2
    y2 := detection.cy + detection.height / 2 }

/-- Intersection-over-union of two corner-form boxes
(`src/unnamed/part_003`, `calculateIoU`). -/
def calculateIoU (boxA boxB : Detection) : ℚ :=
  let intersectX1 := max boxA.x1 boxB.x1
  let intersectY1 := max boxA.y1 boxB.y1
  let intersectX2 := min boxA.x2 boxB.x2
  let intersectY2 := min boxA.y2 boxB.y2
  let intersectWidth := max 0 (intersectX2 - intersectX1)
  let intersectHeight := max 0 (intersectY2 - intersectY1)
  let intersectArea := intersectWidth * intersectHeight
  let boxAArea := (boxA.x2 - boxA.x1) * (boxA.y2 - boxA.y1)
  let boxBArea := (boxB.x2 - boxB.x1) * (boxB.y2 - boxB.y1)
  let unionArea := boxAArea + boxBArea - intersectArea
  if unionArea = 0 then 0 else intersectArea / unionArea

/-- Descending-confidence order used by remeda's stable
`sortBy(boxes, [(box) => box.confidence, 'desc'])`. -/
def confDesc (a b : Detection) : Prop := b.confidence ≤ a.confidence

instance : DecidableRel confDesc := fun a b =>
  inferInstanceAs (Decidable (b.confidence ≤ a.confidence))

instance : IsTotal Detection confDesc := ⟨fun a b => le_total b.confidence a.confidence⟩

instance : IsTrans Detection confDesc := ⟨fun _ _ _ h1 h2 => le_trans h2 h1⟩

/-- Stable sort by confidence descending (remeda `sortBy` with `'desc'`;
insertion sort over the non-strict total preorder `confDesc` is stable). -/
def sortByConfDesc (l : List Detection) : List Detection := l.insertionSort confDesc

/-- The greedy while-loop of `performNMSOnClass` (`src/unnamed/part_003`):
keep the head of the (sorted) remaining list, drop every later box whose IoU
with it strictly exceeds the threshold, repeat. -/
def nmsLoop (iouThreshold : ℚ) : List Detection → List Detection
  | [] => []
  | best :: rest =>
    best :: nmsLoop iouThreshold (rest.filter fun box => calculateIoU best box ≤ iouThreshold)
termination_by l => l.length
decreasing_by
  simp only [List.length_cons]
  exact Nat.lt_succ_of_le (rest.length_filter_le _)

/-- Per-class NMS (`src/unnamed/part_003`, `performNMSOnClass`): sort the
class bucket by confidence descending, then run the greedy keep/suppress loop. -/
def performNMSOnClass (classBoxes : List Detection) (iouThreshold : ℚ) : List Detection :=
  nmsLoop iouThreshold (sortByConfDesc classBoxes)

/-- Class keys of remeda `groupBy (box) => box.classId` in the order
`Object.values` yields the buckets: ascending numeric key order. -/
def classKeys (boxes : List Detection) : List ℕ :=
  ((boxes.map fun box => box.classId).dedup).insertionSort (fun a b => a ≤ b)

/-- Non-Maximum Suppression (`src/unnamed/part_003`, `applyNMS`): fast paths
for zero and one detection, otherwise corner-convert, group by class
(buckets enumerated in ascending classId order, each bucket in input order),
run per-class NMS, flatten beyond, and sort the recombined list by confidence
descending. -/
def applyNMS (detections : List RawDetection) (iouThreshold : ℚ) : List Detection :=
  match detections with
  | [] => []
  | [d] => [convertToCornerCoords d]
  | _ =>
    let boxes := detections.map convertToCornerCoords
    let kept := (classKeys boxes).flatMap fun c =>
      performNMSOnClass (boxes.filter fun box => box.classId = c) iouThreshold
    sortByConfDesc kept

/-- Geometry consumed by the coordinate mapper
(`src/unnamed/part_004`, interface `TransformMetadata`). -/
structure TransformMetadata where
  scale : ℚ
  originalWidth : ℚ
  originalHeight : ℚ
  deriving DecidableEq, Repr

/-- Final detection without its class name — the return type of
`transformCoordinates` (`src/unnamed/part_004`). -/
structure TransformedDetection where
  classId : ℕ
  confidence : ℚ
  x1 : ℚ
  y1 : ℚ
  x2 : ℚ
  y2 : ℚ
  width : ℚ
  height : ℚ
  deriving DecidableEq, Repr

/-- remeda `clamp(value, \x7b min, max \x7d)`: the low bound is applied first,
then the high bound. -/
def clamp (value lo hi : ℚ) : ℚ :=
  if value < lo then lo else if hi < value then hi else value

/-- Coordinate mapper (`src/unnamed/part_004`, `transformCoordinates`):
divide every corner by `scale`, clamp into `[0, originalWidth]` and
`[0, originalHeight]`, and recompute width and height post-clamp. -/
def transformCoordinates (detection : Detection) (metadata : TransformMetadata) :
    TransformedDetection :=
  let x1 := detection.x1 / metadata.scale
  let y1 := detection.y1 / metadata.scale
  let x2 := detection.x2 / metadata.scale
  let y2 := detection.y2 / metadata.scale
  let clampedX1 := clamp x1 0 metadata.originalWidth
  let clampedY1 := clamp y1 0 metadata.originalHeight
  let clampedX2 := clamp x2 0 metadata.originalWidth
  let clampedY2 := clamp y2 0 metadata.originalHeight
  { classId := detection.classId
    confidence := detection.confidence
    x1 := clampedX1
    y1 := clampedY1
    x2 := clampedX2
    y2 := clampedY2
    width := clampedX2 - clampedX1
    height := clampedY2 - clampedY1 }

/-- Geometry produced by the preprocessor (`src/unnamed/part_001`,
`preprocessImage`): `maxSize = max(rows, cols)`, `scale = modelWidth / maxSize`,
original dimensions recorded unchanged. -/
def preprocessGeometry (originalWidth originalHeight modelWidth : ℕ) : TransformMetadata :=
  let maxSize : ℕ := max originalHeight originalWidth
  { scale := (modelWidth : ℚ) / (maxSize : ℚ)
    originalWidth := originalWidth
    originalHeight := originalHeight }

/-- Error raised by the decoder when the declared output shape is not
rank 3/4 or its feature count is not 84 (the spec's `UnsupportedOutputShape`;
both throw sites of `src/app/lib/inference.ts`). -/
inductive InferenceError where
  | unsupportedOutputShape
  deriving DecidableEq, Repr

/-- Normalized output dimensions (`src/app/lib/inference.ts`,
`normalizeOutputShape`): rank 3 `[batch, features, predictions]` or rank 4
`[batch, extra, features, predictions]` with the extra axis ignored. -/
def normalizeOutputShape (dims : List ℕ) :
    Except InferenceError (ℕ × ℕ × ℕ) :=
  match dims with
  | [batch, features, predictions] => .ok (batch, features, predictions)
  | [batch, _, features, predictions] => .ok (batch, features, predictions)
  | _ => .error .unsupportedOutputShape

/-- Constant `NUM_BBOX_COORDS` of `src/app/lib/inference.ts`. -/
def NUM_BBOX_COORDS : ℕ := 4

/-- Constant `NUM_CLASSES` of `src/app/lib/inference.ts`. -/
def NUM_CLASSES : ℕ := 80

/-- Constant `IMAGE_SIZE` of `src/app/lib/inference.ts`. -/
def IMAGE_SIZE : ℚ := 640

/-- Bounding box read from the first four feature rows of a prediction column
(`src/app/lib/inference.ts`, `extractBoundingBox`). -/
structure BoundingBox where
  cx : ℚ
  cy : ℚ
  width : ℚ
  height : ℚ
  deriving DecidableEq, Repr

/-- Reads `(cx, cy, width, height)` for one prediction column
(`src/app/lib/inference.ts`, `extractBoundingBox`). -/
def extractBoundingBox (outputData : List ℚ) (predictionIndex numPredictions : ℕ) :
    BoundingBox :=
  { cx := outputData.getD (0 * numPredictions + predictionIndex) 0
    cy := outputData.getD (1 * numPredictions + predictionIndex) 0
    width := outputData.getD (2 * numPredictions + predictionIndex) 0
    height := outputData.getD (3 * numPredictions + predictionIndex) 0 }

/-- Sanity filter on a candidate box (`src/app/lib/inference.ts`,
`isValidBoundingBox`): positive extents and center inside `[0, IMAGE_SIZE]`. -/
def isValidBoundingBox (bbox : BoundingBox) : Bool :=
  0 < bbox.width && 0 < bbox.height && 0 ≤ bbox.cx && 0 ≤ bbox.cy &&
    bbox.cx ≤ IMAGE_SIZE && bbox.cy ≤ IMAGE_SIZE

/-- Maximum class score and its index for one prediction column
(`src/app/lib/inference.ts`, `findBestClass`): `maxScore` starts at 0 and is
replaced only on a strictly greater score. -/
def findBestClass (outputData : List ℚ) (predictionIndex numPredictions : ℕ) : ℕ × ℚ :=
  (List.range NUM_CLASSES).foldl
    (fun acc classIdx =>
      let score :=
        outputData.getD ((NUM_BBOX_COORDS + classIdx) * numPredictions + predictionIndex) 0
      if acc.2 < score then (classIdx, score) else acc)
    (0, 0)

/-- Body of the decoding loop of `parseYoloOutput`
(`src/app/lib/inference.ts` lines 142-158): one prediction column yields a
`RawDetection` iff its box passes the validity filter and the best class
score reaches the confidence threshold. -/
def decodePrediction (outputData : List ℚ) (numPredictions : ℕ)
    (confidenceThreshold : ℚ) (i : ℕ) : Option RawDetection :=
  let bbox := extractBoundingBox outputData i numPredictions
  if isValidBoundingBox bbox then
    let best := findBestClass outputData i numPredictions
    if confidenceThreshold ≤ best.2 then
      some { classId := best.1, confidence := best.2, cx := bbox.cx, cy := bbox.cy,
             width := bbox.width, height := bbox.height }
    else none
  else none

/-- Decoder (`src/app/lib/inference.ts`, `parseYoloOutput`): normalize the
declared shape, require exactly 84 features, then for each prediction column
emit a `RawDetection` when the box passes the validity filter and the best
class score reaches the confidence threshold. -/
def parseYoloOutput (outputData : List ℚ) (outputShape : List ℕ)
    (confidenceThreshold : ℚ) : Except InferenceError (List RawDetection) :=
  match normalizeOutputShape outputShape with
  | .error e => .error e
  | .ok (_, numFeatures, numPredictions) =>
    if numFeatures ≠ 84 then .error .unsupportedOutputShape
    else
      .ok ((List.range numPredictions).filterMap
        (decodePrediction outputData numPredictions confidenceThreshold))

/-- The `maxDetections` truncation step of `runInference`
(`src/app/lib/inference.ts` lines 213-215): `finalConfig.maxDetections ?
detections.slice(0, finalConfig.maxDetections) : detections`, where an absent
value and the number 0 are both falsy. -/
def truncateDetections (detections : List RawDetection) (maxDetections : Option ℕ) :
    List RawDetection :=
  if maxDetections.getD 0 ≠ 0 then detections.take (maxDetections.getD 0) else detections

/-- Execution backend (`src/app/lib/types/model.ts`, `ExecutionProvider`). -/
inductive ExecutionProvider where
  | webgpu
  | wasm
  | cpu
  deriving DecidableEq, Repr

/-- Capability summary (`src/app/lib/types/model.ts`, `BrowserCapabilities`). -/
structure BrowserCapabilities where
  webgpu : Bool
  wasm : Bool
  simd : Bool
  threads : Bool
  deriving DecidableEq, Repr

/-- Default provider choice (`src/app/lib/onnx-loader.ts`,
`selectExecutionProvider`). -/
def selectExecutionProvider (capabilities : BrowserCapabilities) : ExecutionProvider :=
  if capabilities.webgpu then .webgpu
  else if capabilities.wasm && capabilities.simd && capabilities.threads then .wasm
  else .cpu

/-- The fixed fallback chain of `loadModel` (`src/app/lib/onnx-loader.ts`). -/
def fallbackChain : List ExecutionProvider := [.webgpu, .wasm, .cpu]

/-- The ordered candidate list `providersToTry` computed by `loadModel`
(`src/app/lib/onnx-loader.ts`): the suffix of the fallback chain starting at
the target provider (`fallbackChain.slice(startIndex)`). -/
def providersToTry (targetProvider : ExecutionProvider) : List ExecutionProvider :=
  fallbackChain.drop (fallbackChain.indexOf targetProvider)

/-- The candidate list `loadModel` iterates over: the preferred provider when
given, otherwise the provider selected from the capability summary, then the
suffix of the fallback chain from that point on. -/
def loadModelCandidates (capabilities : BrowserCapabilities)
    (preferredProvider : Option ExecutionProvider) : List ExecutionProvider :=
  providersToTry (preferredProvider.getD (selectExecutionProvider capabilities))

/-- Modelled from the spec (§4.1): which backends the capability summary
marks usable — the GPU backend iff the `webgpu` flag is set, WASM iff the
`wasm`, `simd` and `threads` flags are all set, and the scalar CPU fallback
always. The code has no such predicate; this is the spec side of the
refinement comparison for the resolver's candidate list. -/
def specUsableBackend (capabilities : BrowserCapabilities) : ExecutionProvider → Bool
  | .webgpu => capabilities.webgpu
  | .wasm => capabilities.wasm && capabilities.simd && capabilities.threads
  | .cpu => true

/-- Modelled from the spec (§4.1): the claimed candidate list when no
preference is given — the fixed priority order restricted to usable backends. -/
def specCandidateList (capabilities : BrowserCapabilities) : List ExecutionProvider :=
  fallbackChain.filter (specUsableBackend capabilities)

/-! ### Helper lemmas about `clamp` -/

theorem clamp_le_of_nonneg {v hi : ℚ} (h : 0 ≤ hi) :
    0 ≤ clamp v 0 hi ∧ clamp v 0 hi ≤ hi := by
  unfold clamp
  split_ifs with h1 h2
  · exact ⟨le_refl 0, h⟩
  · exact ⟨h, le_refl hi⟩
  · exact ⟨le_of_not_lt h1, le_of_not_lt h2⟩

theorem clamp_mono {v w lo hi : ℚ} (hlohi : lo ≤ hi) (hvw : v ≤ w) :
    clamp v lo hi ≤ clamp w lo hi := by
  unfold clamp
  split_ifs <;> linarith

theorem clamp_eq_self {v lo hi : ℚ} (h1 : lo ≤ v) (h2 : v ≤ hi) :
    clamp v lo hi = v := by
  unfold clamp
  split_ifs <;> linarith

/-! ### C10 -/

/-- C10: passing `maxDetections = 0` to the truncation step of `runInference`
is treated the same as leaving it absent — all parsed detections are
returned, not zero of them — because the truncation branch fires only for a
truthy `maxDetections`. -/
theorem max_detections_zero_unlimited (detections : List RawDetection) :
    truncateDetections detections (some 0) = detections ∧
      truncateDetections detections (some 0) = truncateDetections detections none := by
  simp [truncateDetections]

/-! ### C2 -/

/-- C2 counterexample: with a capability summary whose only usable
accelerated backend is the GPU (`webgpu = true`, `wasm/simd/threads =
false`), the code's candidate list is the whole chain `[webgpu, wasm, cpu]`,
which is not the priority order restricted to usable backends (that would be
`[webgpu, cpu]`), and the WASM backend is a candidate (hence attempted when
webgpu fails) even though the capability summary does not mark it usable. -/
theorem backend_candidates_counterexample :
    loadModelCandidates ⟨true, false, false, false⟩ none =
        [ExecutionProvider.webgpu, ExecutionProvider.wasm, ExecutionProvider.cpu] ∧
      loadModelCandidates ⟨true, false, false, false⟩ none ≠
        specCandidateList ⟨true, false, false, false⟩ ∧
      ExecutionProvider.wasm ∈ loadModelCandidates ⟨true, false, false, false⟩ none ∧
      specUsableBackend ⟨true, false, false, false⟩ ExecutionProvider.wasm = false := by
  refine ⟨by decide, by decide, by decide, by decide⟩

/-- C2 amended: when no explicit preferred backend is given, the candidate
list is the suffix of the fixed priority order `[webgpu, wasm, cpu]` starting
at the first backend the capability summary marks usable (GPU if its flag is
set, else WASM if the `wasm`, `simd` and `threads` flags are all set, else
CPU); backends after that starting point stay in the list even when the
capability summary does not mark them usable. -/
theorem backend_candidates_characterization (capabilities : BrowserCapabilities) :
    loadModelCandidates capabilities none =
      (if capabilities.webgpu then
        [ExecutionProvider.webgpu, ExecutionProvider.wasm, ExecutionProvider.cpu]
      else if capabilities.wasm && capabilities.simd && capabilities.threads then
        [ExecutionProvider.wasm, ExecutionProvider.cpu]
      else [ExecutionProvider.cpu]) ∧
    (loadModelCandidates capabilities none).head? =
      some (selectExecutionProvider capabilities) := by
  obtain ⟨w, m, s, t⟩ := capabilities
  cases w <;> cases m <;> cases s <;> cases t <;> exact ⟨by decide, by decide⟩

/-! ### C9 -/

/-- Concrete detection used to refute C9 as stated. -/
def detOutOfRange : Detection :=
  { toRawDetection := ⟨0, 1, 0, 0, 2, 2⟩, x1 := -1, y1 := -1, x2 := 1, y2 := 1 }

/-- Concrete geometry used to refute C9 as stated: positive scale but
negative recorded original dimensions. -/
def metaNegative : TransformMetadata := ⟨1, -1, -1⟩

/-- C9 counterexample: a detection with `x1 ≤ x2`, `y1 ≤ y2` and a geometry
with `scale > 0` (but negative recorded original dimensions) for which
`transformCoordinates` yields a coordinate outside
`[0, originalWidth]` and a negative recomputed width. -/
theorem transform_clamp_counterexample :
    detOutOfRange.x1 ≤ detOutOfRange.x2 ∧ detOutOfRange.y1 ≤ detOutOfRange.y2 ∧
      0 < metaNegative.scale ∧
      ¬(0 ≤ (transformCoordinates detOutOfRange metaNegative).x1 ∧
          (transformCoordinates detOutOfRange metaNegative).x1 ≤
            metaNegative.originalWidth) ∧
      ¬(0 ≤ (transformCoordinates detOutOfRange metaNegative).width) := by
  refine ⟨by decide, by decide, by decide, ?_, ?_⟩ <;>
    norm_num [transformCoordinates, clamp, detOutOfRange, metaNegative]

/-- C9 amended: for every detection with `x1 ≤ x2` and `y1 ≤ y2` and every
geometry with `scale > 0` and nonnegative original dimensions,
`transformCoordinates` produces coordinates inside
`[0, originalWidth] × [0, originalHeight]`, and the recomputed width and
height are never negative. -/
theorem transform_clamp_bounds (detection : Detection) (metadata : TransformMetadata)
    (hx : detection.x1 ≤ detection.x2) (hy : detection.y1 ≤ detection.y2)
    (hs : 0 < metadata.scale) (hW : 0 ≤ metadata.originalWidth)
    (hH : 0 ≤ metadata.originalHeight) :
    (0 ≤ (transformCoordinates detection metadata).x1 ∧
      (transformCoordinates detection metadata).x1 ≤ metadata.originalWidth) ∧
    (0 ≤ (transformCoordinates detection metadata).y1 ∧
      (transformCoordinates detection metadata).y1 ≤ metadata.originalHeight) ∧
    (0 ≤ (transformCoordinates detection metadata).x2 ∧
      (transformCoordinates detection metadata).x2 ≤ metadata.originalWidth) ∧
    (0 ≤ (transformCoordinates detection metadata).y2 ∧
      (transformCoordinates detection metadata).y2 ≤ metadata.originalHeight) ∧
    0 ≤ (transformCoordinates detection metadata).width ∧
    0 ≤ (transformCoordinates detection metadata).height := by
  have hxd : detection.x1 / metadata.scale ≤ detection.x2 / metadata.scale :=
    div_le_div_of_nonneg_right hx hs.le
  have hyd : detection.y1 / metadata.scale ≤ detection.y2 / metadata.scale :=
    div_le_div_of_nonneg_right hy hs.le
  simp only [transformCoordinates]
  refine ⟨clamp_le_of_nonneg hW, clamp_le_of_nonneg hH, clamp_le_of_nonneg hW,
    clamp_le_of_nonneg hH, ?_, ?_⟩
  · have := clamp_mono hW hxd
    linarith
  · have := clamp_mono hH hyd
    linarith

/-- C9 amended witness: the amended theorem applied at a concrete detection
and geometry. -/
theorem transform_clamp_bounds_witness :
    0 ≤ (transformCoordinates detOutOfRange ⟨1, 10, 10⟩).x1 ∧
      (transformCoordinates detOutOfRange ⟨1, 10, 10⟩).x1 ≤ (10:ℚ) := by
  have h := transform_clamp_bounds detOutOfRange ⟨1, 10, 10⟩
    (by decide) (by decide) (by decide) (by decide) (by decide)
  exact h.1

/-! ### C1 -/

/-- C1: geometry round-trip — a model-space corner box produced by scaling an
original-space box with the geometry of the preprocessor (positive original
dimensions and model width, `scale = modelWidth / max(width, height)`) is
mapped back by `transformCoordinates` to exactly the original-space
coordinates whenever those lie inside `[0, originalWidth] × [0, originalHeight]`. -/
theorem roundtrip_preprocess_transform (w h mw : ℕ) (_hw : 0 < w) (hh : 0 < h)
    (hmw : 0 < mw) (d : Detection) (X1 Y1 X2 Y2 : ℚ)
    (hX1l : 0 ≤ X1) (hX1u : X1 ≤ (w:ℚ)) (hY1l : 0 ≤ Y1) (hY1u : Y1 ≤ (h:ℚ))
    (hX2l : 0 ≤ X2) (hX2u : X2 ≤ (w:ℚ)) (hY2l : 0 ≤ Y2) (hY2u : Y2 ≤ (h:ℚ))
    (e1 : d.x1 = X1 * (preprocessGeometry w h mw).scale)
    (e2 : d.y1 = Y1 * (preprocessGeometry w h mw).scale)
    (e3 : d.x2 = X2 * (preprocessGeometry w h mw).scale)
    (e4 : d.y2 = Y2 * (preprocessGeometry w h mw).scale) :
    (transformCoordinates d (preprocessGeometry w h mw)).x1 = X1 ∧
    (transformCoordinates d (preprocessGeometry w h mw)).y1 = Y1 ∧
    (transformCoordinates d (preprocessGeometry w h mw)).x2 = X2 ∧
    (transformCoordinates d (preprocessGeometry w h mw)).y2 = Y2 := by
  have hmaxn : 0 < max h w := lt_max_of_lt_left hh
  have hmax : (0:ℚ) < ((max h w : ℕ) : ℚ) := by exact_mod_cast hmaxn
  have hspos : (0:ℚ) < (preprocessGeometry w h mw).scale := by
    simp only [preprocessGeometry]
    exact div_pos (by exact_mod_cast hmw) hmax
  have hsne : (preprocessGeometry w h mw).scale ≠ 0 := hspos.ne'
  have key : ∀ X : ℚ,
      X * (preprocessGeometry w h mw).scale / (preprocessGeometry w h mw).scale = X :=
    fun X => mul_div_cancel_right₀ X hsne
  simp only [transformCoordinates, e1, e2, e3, e4, key]
  exact ⟨clamp_eq_self hX1l hX1u, clamp_eq_self hY1l hY1u,
    clamp_eq_self hX2l hX2u, clamp_eq_self hY2l hY2u⟩

/-- Concrete model-space detection for the C1 witness: the model box
`[100,100]-[200,200]`. -/
def detModelBox : Detection :=
  { toRawDetection := ⟨0, 1, 150, 150, 100, 100⟩, x1 := 100, y1 := 100, x2 := 200, y2 := 200 }

/-- C1 witness: for `originalWidth = 1920`, `originalHeight = 1080`,
`modelWidth = 640` the scale is `1/3` and the model box `[100,100]-[200,200]`
maps back to `[300,300]-[600,600]`. -/
theorem roundtrip_preprocess_transform_witness :
    (preprocessGeometry 1920 1080 640).scale = 1/3 ∧
    (transformCoordinates detModelBox (preprocessGeometry 1920 1080 640)).x1 = 300 ∧
    (transformCoordinates detModelBox (preprocessGeometry 1920 1080 640)).y1 = 300 ∧
    (transformCoordinates detModelBox (preprocessGeometry 1920 1080 640)).x2 = 600 ∧
    (transformCoordinates detModelBox (preprocessGeometry 1920 1080 640)).y2 = 600 := by
  have hs : (preprocessGeometry 1920 1080 640).scale = 1/3 := by
    norm_num [preprocessGeometry]
  have h := roundtrip_preprocess_transform 1920 1080 640 (by decide) (by decide) (by decide)
    detModelBox 300 300 600 600
    (by norm_num) (by norm_num) (by norm_num) (by norm_num)
    (by norm_num) (by norm_num) (by norm_num) (by norm_num)
    (by rw [hs]; norm_num [detModelBox]) (by rw [hs]; norm_num [detModelBox])
    (by rw [hs]; norm_num [detModelBox]) (by rw [hs]; norm_num [detModelBox])
  exact ⟨hs, h.1, h.2.1, h.2.2.1, h.2.2.2⟩

/-! ### C3 -/

/-- IoU is symmetric (shared helper, also used by the NMS development). -/
theorem calculateIoU_comm (boxA boxB : Detection) :
    calculateIoU boxA boxB = calculateIoU boxB boxA := by
  simp only [calculateIoU]
  rw [max_comm boxA.x1 boxB.x1, max_comm boxA.y1 boxB.y1,
      min_comm boxA.x2 boxB.x2, min_comm boxA.y2 boxB.y2,
      add_comm ((boxA.x2 - boxA.x1) * (boxA.y2 - boxA.y1))]

/-- Degenerate zero-area box used to refute `IoU(a,a) = 1` as universally
stated. -/
def detDegenerate : Detection :=
  { toRawDetection := ⟨0, 1, 0, 0, 0, 0⟩, x1 := 0, y1 := 0, x2 := 0, y2 := 0 }

/-- C3 counterexample: for the degenerate box with `x1 = x2` and `y1 = y2`
the union area is zero, so `calculateIoU(a,a)` returns 0, not 1 — the claim
`calculateIoU(a,a) == 1.0` fails for this box. -/
theorem iou_self_degenerate_counterexample :
    calculateIoU detDegenerate detDegenerate = 0 ∧
      calculateIoU detDegenerate detDegenerate ≠ 1 := by
  constructor <;> norm_num [calculateIoU, detDegenerate, min_def, max_def]

/-- C3 amended: `calculateIoU` is symmetric for all boxes; `IoU(a,a) = 1`
for every box of positive area (`x1 < x2` and `y1 < y2`; for zero-area boxes
the defined value is 0); and whenever the intersection area is zero —
including the case of zero union area — the result is 0. -/
theorem iou_symm_self_disjoint :
    (∀ a b : Detection, calculateIoU a b = calculateIoU b a) ∧
    (∀ a : Detection, a.x1 < a.x2 → a.y1 < a.y2 → calculateIoU a a = 1) ∧
    (∀ a b : Detection,
      max 0 (min a.x2 b.x2 - max a.x1 b.x1) * max 0 (min a.y2 b.y2 - max a.y1 b.y1) = 0 →
      calculateIoU a b = 0) := by
  refine ⟨calculateIoU_comm, ?_, ?_⟩
  · intro a hx hy
    simp only [calculateIoU, max_self, min_self]
    rw [max_eq_right (by linarith : (0:ℚ) ≤ a.x2 - a.x1),
        max_eq_right (by linarith : (0:ℚ) ≤ a.y2 - a.y1)]
    have harea : 0 < (a.x2 - a.x1) * (a.y2 - a.y1) := mul_pos (by linarith) (by linarith)
    have hcond : (a.x2 - a.x1) * (a.y2 - a.y1) + (a.x2 - a.x1) * (a.y2 - a.y1) -
        (a.x2 - a.x1) * (a.y2 - a.y1) = (a.x2 - a.x1) * (a.y2 - a.y1) := by ring
    rw [hcond, if_neg harea.ne', div_self harea.ne']
  · intro a b h
    simp only [calculateIoU]
    rw [h]
    split_ifs with hu
    · rfl
    · exact zero_div _

/-- Unit box used in witnesses. -/
def detUnitBox : Detection :=
  { toRawDetection := ⟨0, 1, 0, 0, 1, 1⟩, x1 := 0, y1 := 0, x2 := 1, y2 := 1 }

/-- Distant unit box used in witnesses, disjoint from `detUnitBox`. -/
def detFarBox : Detection :=
  { toRawDetection := ⟨0, 1, 5, 5, 1, 1⟩, x1 := 5, y1 := 5, x2 := 6, y2 := 6 }

/-- C3 amended witness: the amended theorem applied at concrete boxes —
symmetry of a pair, self-IoU 1 on a positive-area box, IoU 0 on a disjoint
pair. -/
theorem iou_symm_self_disjoint_witness :
    calculateIoU detUnitBox detFarBox = calculateIoU detFarBox detUnitBox ∧
      calculateIoU detUnitBox detUnitBox = 1 ∧
      calculateIoU detUnitBox detFarBox = 0 := by
  refine ⟨iou_symm_self_disjoint.1 detUnitBox detFarBox,
    iou_symm_self_disjoint.2.1 detUnitBox (by norm_num [detUnitBox]) (by norm_num [detUnitBox]),
    iou_symm_self_disjoint.2.2 detUnitBox detFarBox
      (by norm_num [detUnitBox, detFarBox, min_def, max_def])⟩

/-! ### C7 -/

/-- C7: the decoder fails with `UnsupportedOutputShape` exactly when the
declared output shape has rank other than 3 or 4, or when the feature count
(second axis for rank 3, third axis for rank 4) differs from 84 = 4 + 80;
otherwise it returns a detection list. A declared feature count of 100 is
rejected (see the witnessing conjuncts of the iff at such shapes). -/
theorem parse_shape_rejection_iff (outputData : List ℚ) (outputShape : List ℕ)
    (confidenceThreshold : ℚ) :
    parseYoloOutput outputData outputShape confidenceThreshold =
        .error .unsupportedOutputShape ↔
      ¬((outputShape.length = 3 ∧ outputShape.getD 1 0 = 84) ∨
        (outputShape.length = 4 ∧ outputShape.getD 2 0 = 84)) := by
  match outputShape with
  | [] => simp [parseYoloOutput, normalizeOutputShape]
  | [a] => simp [parseYoloOutput, normalizeOutputShape]
  | [a, b] => simp [parseYoloOutput, normalizeOutputShape]
  | [a, b, c] =>
    by_cases hb : b = 84 <;>
      simp [parseYoloOutput, normalizeOutputShape, hb]
  | [a, b, c, d] =>
    by_cases hc : c = 84 <;>
      simp [parseYoloOutput, normalizeOutputShape, hc]
  | a :: b :: c :: d :: e :: rest =>
    simp [parseYoloOutput, normalizeOutputShape]

/-! ### C6 -/

/-- Shared helper: a pointwise-stricter partial map yields a sublist. -/
theorem filterMap_sublist_of_imp {α β : Type} {f g : α → Option β} (l : List α)
    (h : ∀ a b, f a = some b → g a = some b) :
    List.Sublist (l.filterMap f) (l.filterMap g) := by
  induction l with
  | nil => simp
  | cons a l ih =>
    rw [List.filterMap_cons, List.filterMap_cons]
    cases hfa : f a with
    | some b =>
      rw [h a b hfa]
      exact ih.cons₂ b
    | none =>
      cases hga : g a with
      | none => exact ih
      | some c => exact ih.cons c

/-- C6: raising the confidence threshold never increases the number of
emitted raw detections — for any raw buffer and declared shape, the decoder
output at a higher threshold is (lengthwise) no larger than at a lower one. -/
theorem parse_threshold_monotone (outputData : List ℚ) (outputShape : List ℕ)
    (t1 t2 : ℚ) (h12 : t1 ≤ t2) (l1 l2 : List RawDetection)
    (h1 : parseYoloOutput outputData outputShape t1 = .ok l1)
    (h2 : parseYoloOutput outputData outputShape t2 = .ok l2) :
    l2.length ≤ l1.length := by
  unfold parseYoloOutput at h1 h2
  cases hn : normalizeOutputShape outputShape with
  | error e => rw [hn] at h1; cases h1
  | ok s =>
    obtain ⟨b, nf, np⟩ := s
    rw [hn] at h1 h2
    dsimp only at h1 h2
    by_cases hf : nf ≠ 84
    · rw [if_pos hf] at h1; cases h1
    · rw [if_neg hf] at h1 h2
      injection h1 with h1
      injection h2 with h2
      rw [← h1, ← h2]
      apply List.Sublist.length_le
      apply filterMap_sublist_of_imp
      intro i d hd
      simp only [decodePrediction] at hd ⊢
      by_cases hv : isValidBoundingBox (extractBoundingBox outputData i np) = true
      · rw [if_pos hv] at hd ⊢
        by_cases ht2 : t2 ≤ (findBestClass outputData i np).2
        · rw [if_pos ht2] at hd
          rw [if_pos (le_trans h12 ht2)]
          exact hd
        · rw [if_neg ht2] at hd
          cases hd
      · rw [if_neg hv] at hd
        cases hd

set_option maxRecDepth 10000 in
/-- C6 witness: the monotonicity theorem applied to a concrete one-column
buffer at thresholds 0 ≤ 3 (one detection at threshold 0, none at 3). -/
theorem parse_threshold_monotone_witness :
    ([] : List RawDetection).length ≤
      [({ classId := 0, confidence := 2, cx := 1, cy := 1, width := 1,
          height := 1 } : RawDetection)].length :=
  parse_threshold_monotone [1, 1, 1, 1, 2] [1, 84, 1] 0 3 (by norm_num) _ _ (by rfl) (by rfl)

/-! ### C8 -/

set_option maxRecDepth 10000 in
/-- C8 counterexample: a buffer whose class-0 score is 2 (outside `[0,1]`)
makes the decoder emit a detection with confidence 2, so `confidence ∈ [0,1]`
does not hold for every input buffer. -/
theorem raw_detection_confidence_counterexample :
    parseYoloOutput [1, 1, 1, 1, 2] [1, 84, 1] 0 =
        .ok [{ classId := 0, confidence := 2, cx := 1, cy := 1, width := 1, height := 1 }] ∧
      ¬((2:ℚ) ≤ 1) :=
  ⟨by rfl, by norm_num⟩

/-- Shared helper: the running best score of `findBestClass` stays
nonnegative (it starts at 0 and is only ever replaced by a strictly larger
score). -/
theorem foldl_best_nonneg (outputData : List ℚ) (i np : ℕ) :
    ∀ (idxs : List ℕ) (acc : ℕ × ℚ), 0 ≤ acc.2 →
      0 ≤ (idxs.foldl (fun acc classIdx =>
        let score := outputData.getD ((NUM_BBOX_COORDS + classIdx) * np + i) 0
        if acc.2 < score then (classIdx, score) else acc) acc).2
  | [], _, h => h
  | a :: idxs, acc, h => by
    rw [List.foldl_cons]
    apply foldl_best_nonneg outputData i np idxs
    dsimp only
    split_ifs with hlt
    · exact le_of_lt (lt_of_le_of_lt h hlt)
    · exact h

/-- Shared helper: a `getD` read from a buffer bounded by `[0,1]` is at
most 1 (the default 0 included). -/
theorem getD_le_one (l : List ℚ) (hb : ∀ x ∈ l, 0 ≤ x ∧ x ≤ 1) (n : ℕ) :
    l.getD n 0 ≤ 1 := by
  rw [List.getD_eq_getElem?_getD]
  cases hq : l[n]? with
  | none => norm_num
  | some x =>
    have hx := hb x (List.getElem?_mem hq)
    simpa using hx.2

/-- Shared helper: the running best score of `findBestClass` stays at most 1
when every buffer value lies in `[0,1]`. -/
theorem foldl_best_le_one (outputData : List ℚ) (i np : ℕ)
    (hb : ∀ x ∈ outputData, 0 ≤ x ∧ x ≤ 1) :
    ∀ (idxs : List ℕ) (acc : ℕ × ℚ), acc.2 ≤ 1 →
      (idxs.foldl (fun acc classIdx =>
        let score := outputData.getD ((NUM_BBOX_COORDS + classIdx) * np + i) 0
        if acc.2 < score then (classIdx, score) else acc) acc).2 ≤ 1
  | [], _, h => h
  | a :: idxs, acc, h => by
    rw [List.foldl_cons]
    apply foldl_best_le_one outputData i np hb idxs
    dsimp only
    split_ifs with hlt
    · exact getD_le_one outputData hb _
    · exact h

set_option maxRecDepth 10000 in
/-- C8 amended: every raw detection the decoder emits has `classId ≥ 0`,
`confidence ≥ 0`, `width > 0` and `height > 0`, for every buffer and
threshold; and whenever every buffer value lies in `[0,1]` the confidence
also lies in `[0,1]`. (The unconditional upper bound `confidence ≤ 1` of the
original claim is refuted by the counterexample: the best class score is
taken as-is, never clamped.) -/
theorem raw_detection_wellformed (outputData : List ℚ) (outputShape : List ℕ)
    (confidenceThreshold : ℚ) (l : List RawDetection)
    (hok : parseYoloOutput outputData outputShape confidenceThreshold = .ok l) :
    ∀ d ∈ l, 0 ≤ d.classId ∧ 0 ≤ d.confidence ∧ 0 < d.width ∧ 0 < d.height ∧
      ((∀ x ∈ outputData, 0 ≤ x ∧ x ≤ 1) → d.confidence ≤ 1) := by
  unfold parseYoloOutput at hok
  cases hn : normalizeOutputShape outputShape with
  | error e => rw [hn] at hok; cases hok
  | ok s =>
    obtain ⟨b, nf, np⟩ := s
    rw [hn] at hok
    dsimp only at hok
    by_cases hf : nf ≠ 84
    · rw [if_pos hf] at hok; cases hok
    · rw [if_neg hf] at hok
      injection hok with hok
      intro d hd
      rw [← hok] at hd
      obtain ⟨i, _, hdec⟩ := List.mem_filterMap.mp hd
      simp only [decodePrediction] at hdec
      by_cases hv : isValidBoundingBox (extractBoundingBox outputData i np) = true
      · rw [if_pos hv] at hdec
        by_cases ht : confidenceThreshold ≤ (findBestClass outputData i np).2
        · rw [if_pos ht] at hdec
          injection hdec with hdec
          subst hdec
          simp only [isValidBoundingBox, Bool.and_eq_true, decide_eq_true_eq] at hv
          refine ⟨Nat.zero_le _, ?_, hv.1.1.1.1.1, hv.1.1.1.1.2, ?_⟩
          · unfold findBestClass
            exact foldl_best_nonneg outputData i np _ _ le_rfl
          · intro hb
            unfold findBestClass
            exact foldl_best_le_one outputData i np hb _ _ (by norm_num)
        · rw [if_neg ht] at hdec
          cases hdec
      · rw [if_neg hv] at hdec
        cases hdec

/-- Concrete raw detection emitted by the decoder on the all-ones in-bounds
buffer, used by the C8 witness. -/
def detInBounds : RawDetection := ⟨0, 1, 1, 1, 1, 1⟩

set_option maxRecDepth 10000 in
/-- C8 amended witness: the amended theorem applied to a concrete in-bounds
buffer (single column, class-0 score 4/5), instantiated at its single
emitted detection. -/
theorem raw_detection_wellformed_witness :
    0 ≤ detInBounds.confidence ∧ detInBounds.confidence ≤ 1 := by
  have h := raw_detection_wellformed [1, 1, 1, 1, 1] [1, 84, 1] 0 [detInBounds]
    (by rfl) detInBounds (by norm_num [detInBounds])
  exact ⟨h.2.1, h.2.2.2.2 (by intro x hx; simp at hx; subst hx; norm_num)⟩

/-! ### NMS development: properties of the greedy loop and the sort -/

theorem nmsLoop_nil (t : ℚ) : nmsLoop t [] = [] := by
  simp [nmsLoop]

theorem nmsLoop_cons (t : ℚ) (best : Detection) (rest : List Detection) :
    nmsLoop t (best :: rest) =
      best :: nmsLoop t (rest.filter fun box => calculateIoU best box ≤ t) := by
  rw [nmsLoop]

theorem nmsLoop_sublist (t : ℚ) : ∀ (l : List Detection), List.Sublist (nmsLoop t l) l
  | [] => by
    rw [nmsLoop_nil]
  | best :: rest => by
    rw [nmsLoop_cons]
    refine List.Sublist.cons₂ best ?_
    exact (nmsLoop_sublist t _).trans (List.filter_sublist rest)
termination_by l => l.length
decreasing_by
  simp only [List.length_cons]
  exact Nat.lt_succ_of_le (rest.length_filter_le _)

theorem nmsLoop_pairwise (t : ℚ) :
    ∀ (l : List Detection), (nmsLoop t l).Pairwise fun a b => calculateIoU a b ≤ t
  | [] => by
    rw [nmsLoop_nil]
    exact List.Pairwise.nil
  | best :: rest => by
    rw [nmsLoop_cons]
    refine List.Pairwise.cons ?_ (nmsLoop_pairwise t _)
    intro b hb
    have hmem := (nmsLoop_sublist t _).subset hb
    exact of_decide_eq_true (List.mem_filter.mp hmem).2
termination_by l => l.length
decreasing_by
  simp only [List.length_cons]
  exact Nat.lt_succ_of_le (rest.length_filter_le _)

theorem nmsLoop_eq_self (t : ℚ) (l : List Detection)
    (h : l.Pairwise fun a b => calculateIoU a b ≤ t) : nmsLoop t l = l := by
  induction l with
  | nil => exact nmsLoop_nil t
  | cons best rest ih =>
    rw [nmsLoop_cons]
    rw [List.pairwise_cons] at h
    have hf : (rest.filter fun box => decide (calculateIoU best box ≤ t)) = rest :=
      List.filter_eq_self.mpr fun b hb => decide_eq_true (h.1 b hb)
    rw [hf, ih h.2]

theorem sortByConfDesc_perm (l : List Detection) : List.Perm (sortByConfDesc l) l :=
  List.perm_insertionSort confDesc l

theorem sortByConfDesc_sorted (l : List Detection) : (sortByConfDesc l).Sorted confDesc :=
  List.sorted_insertionSort confDesc l

theorem sortByConfDesc_eq_self {l : List Detection} (h : l.Sorted confDesc) :
    sortByConfDesc l = l :=
  h.insertionSort_eq

theorem performNMSOnClass_subset (l : List Detection) (t : ℚ) :
    ∀ d ∈ performNMSOnClass l t, d ∈ l := by
  intro d hd
  have h1 := (nmsLoop_sublist t (sortByConfDesc l)).subset hd
  exact (sortByConfDesc_perm l).mem_iff.mp h1

theorem performNMSOnClass_pairwise (l : List Detection) (t : ℚ) :
    (performNMSOnClass l t).Pairwise fun a b => calculateIoU a b ≤ t :=
  nmsLoop_pairwise t (sortByConfDesc l)

theorem performNMSOnClass_sorted (l : List Detection) (t : ℚ) :
    (performNMSOnClass l t).Sorted confDesc :=
  List.Pairwise.sublist (nmsLoop_sublist t _) (sortByConfDesc_sorted l)

theorem performNMSOnClass_eq_self {l : List Detection} {t : ℚ} (hs : l.Sorted confDesc)
    (hp : l.Pairwise fun a b => calculateIoU a b ≤ t) : performNMSOnClass l t = l := by
  unfold performNMSOnClass
  rw [sortByConfDesc_eq_self hs, nmsLoop_eq_self t l hp]

theorem performNMSOnClass_singleton (d : Detection) (t : ℚ) :
    performNMSOnClass [d] t = [d] := by
  unfold performNMSOnClass sortByConfDesc
  rw [show List.insertionSort confDesc [d] = [d] from rfl, nmsLoop_cons]
  rw [show List.filter (fun box => decide (calculateIoU d box ≤ t)) [] = [] from rfl,
    nmsLoop_nil]

/-! ### NMS development: class keys and flatMap partition lemmas -/

theorem classKeys_nodup (boxes : List Detection) : (classKeys boxes).Nodup := by
  unfold classKeys
  exact (List.perm_insertionSort _ _).nodup_iff.mpr (List.nodup_dedup _)

theorem mem_classKeys {boxes : List Detection} {c : ℕ} :
    c ∈ classKeys boxes ↔ ∃ d ∈ boxes, d.classId = c := by
  unfold classKeys
  rw [List.mem_insertionSort, List.mem_dedup, List.mem_map]

theorem flatMap_congr {α β : Type} {l : List α} {f g : α → List β}
    (h : ∀ a ∈ l, f a = g a) : l.flatMap f = l.flatMap g := by
  induction l with
  | nil => rfl
  | cons a l ih =>
    rw [List.flatMap_cons, List.flatMap_cons, h a (List.mem_cons_self a l),
      ih fun b hb => h b (List.mem_cons_of_mem a hb)]

theorem filter_flatMap_class {α : Type} (keys : List α) (F : α → List Detection)
    (p : Detection → Bool) :
    (keys.flatMap F).filter p = keys.flatMap fun k => (F k).filter p := by
  induction keys with
  | nil => rfl
  | cons k keys ih =>
    rw [List.flatMap_cons, List.flatMap_cons, List.filter_append, ih]

theorem filter_class_bucket {c k : ℕ} (F : List Detection)
    (hF : ∀ d ∈ F, d.classId = k) :
    (F.filter fun d => d.classId = c) = if k = c then F else [] := by
  split_ifs with hkc
  · subst hkc
    exact List.filter_eq_self.mpr fun d hd => decide_eq_true (hF d hd)
  · refine List.filter_eq_nil_iff.mpr fun d hd => ?_
    simp only [decide_eq_true_eq]
    rw [hF d hd]
    exact hkc

theorem flatMap_eq_single {c : ℕ} (G : ℕ → List Detection) :
    ∀ (keys : List ℕ), keys.Nodup → (∀ k, k ≠ c → G k = []) →
      keys.flatMap G = if c ∈ keys then G c else []
  | [], _, _ => by simp
  | k :: keys, hnd, hG => by
    obtain ⟨hk, hnd'⟩ := List.nodup_cons.mp hnd
    rw [List.flatMap_cons, flatMap_eq_single G keys hnd' hG]
    by_cases hkc : k = c
    · subst hkc
      rw [if_neg hk, if_pos (List.mem_cons_self k keys), List.append_nil]
    · rw [hG k hkc, List.nil_append]
      by_cases hc : c ∈ keys
      · rw [if_pos hc, if_pos (List.mem_cons_of_mem k hc)]
      · rw [if_neg hc, if_neg]
        intro hmem
        rcases List.mem_cons.mp hmem with h | h
        · exact hkc h.symm
        · exact hc h

theorem flatMap_filter_cons_perm (d : Detection) (l : List Detection) :
    ∀ (keys : List ℕ), keys.Nodup → d.classId ∈ keys →
      List.Perm (keys.flatMap fun c => (d :: l).filter fun e => e.classId = c)
        (d :: keys.flatMap fun c => l.filter fun e => e.classId = c)
  | [], _, hd => absurd hd (List.not_mem_nil _)
  | k :: keys, hnd, hd => by
    obtain ⟨hk, hnd'⟩ := List.nodup_cons.mp hnd
    rw [List.flatMap_cons, List.flatMap_cons]
    by_cases hkc : d.classId = k
    · rw [show ((d :: l).filter fun e => e.classId = k) =
          d :: (l.filter fun e => e.classId = k) by simp [List.filter_cons, hkc]]
      have hrest : (keys.flatMap fun c => (d :: l).filter fun e => e.classId = c) =
          keys.flatMap fun c => l.filter fun e => e.classId = c := by
        refine flatMap_congr fun c hc => ?_
        have hne : ¬(d.classId = c) := fun h => hk ((h.symm.trans hkc) ▸ hc)
        simp [List.filter_cons, hne]
      rw [hrest]
      exact List.Perm.refl _
    · rw [show ((d :: l).filter fun e => e.classId = k) =
          l.filter fun e => e.classId = k by simp [List.filter_cons, hkc]]
      have hd' : d.classId ∈ keys := by
        rcases List.mem_cons.mp hd with h | h
        · exact absurd h hkc
        · exact h
      have hstep := flatMap_filter_cons_perm d l keys hnd' hd'
      exact (hstep.append_left _).trans List.perm_middle

theorem flatMap_filter_perm :
    ∀ (l : List Detection) (keys : List ℕ), keys.Nodup →
      (∀ d ∈ l, d.classId ∈ keys) →
      List.Perm (keys.flatMap fun c => l.filter fun d => d.classId = c) l
  | [], keys, _, _ => by
    have h0 : ∀ ks : List ℕ,
        (ks.flatMap fun c => ([] : List Detection).filter fun d => d.classId = c) = [] := by
      intro ks
      induction ks with
      | nil => rfl
      | cons k ks ih => rw [List.flatMap_cons, List.filter_nil, List.nil_append]; exact ih
    rw [h0]
  | d :: l, keys, hnd, hcov => by
    have hstep := flatMap_filter_cons_perm d l keys hnd (hcov d (List.mem_cons_self d l))
    refine hstep.trans (List.Perm.cons d ?_)
    exact flatMap_filter_perm l keys hnd fun e he => hcov e (List.mem_cons_of_mem d he)

/-! ### NMS development: properties of `applyNMS` -/

theorem applyNMS_two_or_more (a b : RawDetection) (rest : List RawDetection) (t : ℚ) :
    applyNMS (a :: b :: rest) t =
      sortByConfDesc ((classKeys ((a :: b :: rest).map convertToCornerCoords)).flatMap
        fun c => performNMSOnClass (((a :: b :: rest).map convertToCornerCoords).filter
          fun box => box.classId = c) t) :=
  rfl

theorem applyNMS_mem_convert {dets : List RawDetection} {t : ℚ} {d : Detection}
    (hd : d ∈ applyNMS dets t) : ∃ r ∈ dets, d = convertToCornerCoords r := by
  match dets with
  | [] => cases hd
  | [r] =>
    rw [show applyNMS [r] t = [convertToCornerCoords r] from rfl] at hd
    rw [List.mem_singleton.mp hd]
    exact ⟨r, List.mem_singleton_self r, rfl⟩
  | a :: b :: rest =>
    rw [applyNMS_two_or_more] at hd
    have h1 := (sortByConfDesc_perm _).subset hd
    obtain ⟨c, _, hdc⟩ := List.mem_flatMap.mp h1
    have h2 := performNMSOnClass_subset _ _ _ hdc
    have h3 := List.mem_of_mem_filter h2
    obtain ⟨r, hr, hre⟩ := List.mem_map.mp h3
    exact ⟨r, hr, hre.symm⟩

theorem applyNMS_sorted (dets : List RawDetection) (t : ℚ) :
    (applyNMS dets t).Sorted confDesc := by
  match dets with
  | [] => exact List.Pairwise.nil
  | [r] => exact List.sorted_singleton _
  | a :: b :: rest =>
    rw [applyNMS_two_or_more]
    exact sortByConfDesc_sorted _

theorem performNMSOnClass_classId {boxes : List Detection} {c : ℕ} {t : ℚ} {d : Detection}
    (hd : d ∈ performNMSOnClass (boxes.filter fun box => box.classId = c) t) :
    d.classId = c := by
  have h1 := performNMSOnClass_subset _ _ _ hd
  exact of_decide_eq_true (List.mem_filter.mp h1).2

theorem applyNMS_pairwise (dets : List RawDetection) (t : ℚ) :
    (applyNMS dets t).Pairwise fun a b =>
      a.classId = b.classId → calculateIoU a b ≤ t := by
  have hsymm : ∀ {x y : Detection}, (x.classId = y.classId → calculateIoU x y ≤ t) →
      (y.classId = x.classId → calculateIoU y x ≤ t) := by
    intro x y h he
    rw [calculateIoU_comm]
    exact h he.symm
  match dets with
  | [] => exact List.Pairwise.nil
  | [r] =>
    rw [show applyNMS [r] t = [convertToCornerCoords r] from rfl]
    exact List.pairwise_singleton _ _
  | a :: b :: rest =>
    rw [applyNMS_two_or_more]
    refine List.Pairwise.perm ?_ (sortByConfDesc_perm _).symm hsymm
    rw [List.pairwise_flatMap]
    constructor
    · intro c _
      exact List.Pairwise.imp
        (fun {x y} (hxy : calculateIoU x y ≤ t) (_ : x.classId = y.classId) => hxy)
        (performNMSOnClass_pairwise _ t)
    · have hnd := classKeys_nodup ((a :: b :: rest).map convertToCornerCoords)
      refine hnd.imp ?_
      intro k1 k2 hne x hx y hy hcls
      exact absurd ((performNMSOnClass_classId hx).symm.trans
        (hcls.trans (performNMSOnClass_classId hy))) hne

theorem performNMSOnClass_nil (t : ℚ) : performNMSOnClass [] t = [] := by
  unfold performNMSOnClass sortByConfDesc
  rw [show List.insertionSort confDesc [] = [] from rfl, nmsLoop_nil]

theorem applyNMS_filter_class (dets : List RawDetection) (t : ℚ) (c : ℕ) :
    List.Perm ((applyNMS dets t).filter fun d => d.classId = c)
      (performNMSOnClass ((dets.map convertToCornerCoords).filter
        fun box => box.classId = c) t) := by
  match dets with
  | [] =>
    rw [show applyNMS [] t = [] from rfl, List.map_nil, List.filter_nil,
      performNMSOnClass_nil]
  | [r] =>
    rw [show applyNMS [r] t = [convertToCornerCoords r] from rfl, List.map_singleton]
    by_cases hc : (convertToCornerCoords r).classId = c
    · rw [show (([convertToCornerCoords r]).filter fun d => d.classId = c) =
          [convertToCornerCoords r] from by simp [List.filter_cons, hc]]
      rw [performNMSOnClass_singleton]
    · rw [show (([convertToCornerCoords r]).filter fun d => d.classId = c) =
          [] from by simp [List.filter_cons, hc]]
      rw [performNMSOnClass_nil]
  | a :: b :: rest =>
    rw [applyNMS_two_or_more]
    refine ((sortByConfDesc_perm _).filter _).trans ?_
    rw [filter_flatMap_class]
    have h2 : ∀ k ∈ classKeys ((a :: b :: rest).map convertToCornerCoords),
        ((performNMSOnClass (((a :: b :: rest).map convertToCornerCoords).filter
            fun box => box.classId = k) t).filter fun d => d.classId = c) =
          if k = c then performNMSOnClass (((a :: b :: rest).map convertToCornerCoords).filter
            fun box => box.classId = k) t else [] := fun k _ =>
      filter_class_bucket _ fun d hd => performNMSOnClass_classId hd
    rw [flatMap_congr h2, flatMap_eq_single _ _ (classKeys_nodup _) fun k hkc => if_neg hkc]
    by_cases hc : c ∈ classKeys ((a :: b :: rest).map convertToCornerCoords)
    · rw [if_pos hc, if_pos rfl]
    · rw [if_neg hc]
      have hempty : (((a :: b :: rest).map convertToCornerCoords).filter
          fun box => box.classId = c) = [] := by
        refine List.filter_eq_nil_iff.mpr fun d hd => ?_
        simp only [decide_eq_true_eq]
        exact fun he => hc (mem_classKeys.mpr ⟨d, hd, he⟩)
      rw [hempty, performNMSOnClass_nil]

theorem applyNMS_length_two_eq (dets : List RawDetection) (t : ℚ) (h : 2 ≤ dets.length) :
    applyNMS dets t =
      sortByConfDesc ((classKeys (dets.map convertToCornerCoords)).flatMap
        fun c => performNMSOnClass ((dets.map convertToCornerCoords).filter
          fun box => box.classId = c) t) := by
  match dets with
  | [] => simp at h
  | [d] => simp at h
  | a :: b :: rest => exact applyNMS_two_or_more a b rest t

theorem applyNMS_idem_perm (dets : List RawDetection) (t : ℚ) :
    List.Perm (applyNMS ((applyNMS dets t).map Detection.toRawDetection) t)
      (applyNMS dets t) := by
  rcases hout : applyNMS dets t with _ | ⟨a, _ | ⟨b, rest⟩⟩
  · exact List.Perm.refl _
  · have ha : a ∈ applyNMS dets t := by
      rw [hout]
      exact List.mem_singleton_self a
    obtain ⟨r, _, hre⟩ := applyNMS_mem_convert ha
    rw [show ([a].map Detection.toRawDetection) = [a.toRawDetection] from rfl,
      show applyNMS [a.toRawDetection] t = [convertToCornerCoords a.toRawDetection] from rfl,
      show convertToCornerCoords a.toRawDetection = a from by rw [hre]; rfl]
  · have hboxes : (((a :: b :: rest).map Detection.toRawDetection).map
        convertToCornerCoords) = a :: b :: rest := by
      rw [List.map_map]
      have hid : ∀ d ∈ (a :: b :: rest), convertToCornerCoords d.toRawDetection = d := by
        intro d hd
        have hmem : d ∈ applyNMS dets t := by
          rw [hout]
          exact hd
        obtain ⟨r, _, hre⟩ := applyNMS_mem_convert hmem
        rw [hre]
        rfl
      calc ((a :: b :: rest).map (convertToCornerCoords ∘ Detection.toRawDetection))
          = (a :: b :: rest).map id := List.map_congr_left hid
        _ = a :: b :: rest := List.map_id _
    rw [applyNMS_length_two_eq _ t (by simp), hboxes]
    have hsort : (a :: b :: rest).Sorted confDesc := by
      rw [← hout]
      exact applyNMS_sorted dets t
    have hpair : (a :: b :: rest).Pairwise fun x y =>
        x.classId = y.classId → calculateIoU x y ≤ t := by
      rw [← hout]
      exact applyNMS_pairwise dets t
    have hbucket : ∀ c ∈ classKeys (a :: b :: rest),
        performNMSOnClass ((a :: b :: rest).filter fun box => box.classId = c) t =
          (a :: b :: rest).filter fun box => box.classId = c := by
      intro c _
      refine performNMSOnClass_eq_self (List.Pairwise.sublist (List.filter_sublist _) hsort) ?_
      have h1 : ((a :: b :: rest).filter fun box => box.classId = c).Pairwise
          fun x y => x.classId = y.classId → calculateIoU x y ≤ t :=
        List.Pairwise.sublist (List.filter_sublist _) hpair
      refine h1.imp_of_mem ?_
      intro x y hx hy hxy
      apply hxy
      rw [of_decide_eq_true (List.mem_filter.mp hx).2,
        of_decide_eq_true (List.mem_filter.mp hy).2]
    rw [flatMap_congr hbucket]
    refine (sortByConfDesc_perm _).trans ?_
    refine flatMap_filter_perm _ _ (classKeys_nodup _) ?_
    intro d hd
    exact mem_classKeys.mpr ⟨d, hd, rfl⟩

/-! ### C4 -/

/-- C4: NMS idempotence — applying the Suppressor to its own output (fed
back through the raw fields, from which `convertToCornerCoords` recomputes
the same corners, exactly as the TypeScript spread does) with the same
threshold yields the same set of detections as applying it once; in fact the
two outputs are permutations of one another. -/
theorem nms_idempotent (detections : List RawDetection) (iouThreshold : ℚ) :
    ∀ d : Detection,
      d ∈ applyNMS ((applyNMS detections iouThreshold).map Detection.toRawDetection)
          iouThreshold ↔
        d ∈ applyNMS detections iouThreshold :=
  fun _ => (applyNMS_idem_perm detections iouThreshold).mem_iff

/-! ### C5 -/

/-- C5: per-class independence — for every input list and threshold, the
class-`c` detections of the Suppressor's output are exactly (up to the final
confidence re-sort) the result of running per-class NMS on the class-`c`
bucket alone, so detections of different classes never suppress one another;
in particular two detections with identical box geometry but different
classIds both appear in the output. -/
theorem nms_per_class_independence :
    (∀ (dets : List RawDetection) (t : ℚ) (c : ℕ),
      List.Perm ((applyNMS dets t).filter fun d => d.classId = c)
        (performNMSOnClass ((dets.map convertToCornerCoords).filter
          fun box => box.classId = c) t)) ∧
    ∀ (d1 d2 : RawDetection) (t : ℚ), d1.classId ≠ d2.classId →
      d1.cx = d2.cx → d1.cy = d2.cy → d1.width = d2.width → d1.height = d2.height →
      convertToCornerCoords d1 ∈ applyNMS [d1, d2] t ∧
        convertToCornerCoords d2 ∈ applyNMS [d1, d2] t := by
  refine ⟨applyNMS_filter_class, ?_⟩
  intro d1 d2 t hne _ _ _ _
  have key : ∀ (e1 e2 : RawDetection), e1.classId ≠ e2.classId →
      convertToCornerCoords e1 ∈ applyNMS [e1, e2] t ∧
        convertToCornerCoords e1 ∈ applyNMS [e2, e1] t := by
    intro e1 e2 hne12
    constructor
    · have h := applyNMS_filter_class [e1, e2] t e1.classId
      have hf : (([e1, e2].map convertToCornerCoords).filter
          fun box => box.classId = e1.classId) = [convertToCornerCoords e1] := by
        simp [List.filter_cons, convertToCornerCoords, hne12.symm]
      rw [hf, performNMSOnClass_singleton] at h
      exact List.mem_of_mem_filter
        (h.symm.subset (List.mem_singleton_self (convertToCornerCoords e1)))
    · have h := applyNMS_filter_class [e2, e1] t e1.classId
      have hf : (([e2, e1].map convertToCornerCoords).filter
          fun box => box.classId = e1.classId) = [convertToCornerCoords e1] := by
        simp [List.filter_cons, convertToCornerCoords, hne12.symm]
      rw [hf, performNMSOnClass_singleton] at h
      exact List.mem_of_mem_filter
        (h.symm.subset (List.mem_singleton_self (convertToCornerCoords e1)))
  exact ⟨(key d1 d2 hne).1, (key d2 d1 hne.symm).2⟩

/-- Same-geometry raw detections of different classes used by the C5
witness. -/
def rdClassA : RawDetection := ⟨0, 1, 10, 10, 4, 4⟩

/-- Second raw detection for the C5 witness: identical geometry to
`rdClassA` but a different classId. -/
def rdClassB : RawDetection := ⟨1, 1, 10, 10, 4, 4⟩

/-- C5 witness: the per-class independence theorem applied at two concrete
same-geometry detections of different classes and the default IoU threshold;
both survive. -/
theorem nms_per_class_independence_witness :
    convertToCornerCoords rdClassA ∈ applyNMS [rdClassA, rdClassB] (45/100) ∧
      convertToCornerCoords rdClassB ∈ applyNMS [rdClassA, rdClassB] (45/100) :=
  nms_per_class_independence.2 rdClassA rdClassB (45/100) (by decide) rfl rfl rfl rfl
